import Mathlib

/-!
Verification of the custom-format synchronization engine in
`src/sync_script.py` (classes `VersionManager`, `APIClient`,
`CustomFormatSyncer`).

Shallow embedding conventions:
* JSON values are modelled by the inductive type `Json`; Python dictionaries
  parsed from JSON become association lists `List (String × Json)` with
  distinct keys, in insertion order.  Python `dict.get`, `dict[k] = v` and
  `==` become `alookup`, `aset` and `pyEq` (Python equality is key-order
  insensitive on dicts and identifies `True`/`False` with `1`/`0`).
* `semver.VersionInfo` is modelled by its numeric core `SemVer`
  (major.minor.patch with lexicographic order); `semver.VersionInfo.parse`
  becomes `parseVersion`, which accepts exactly dot-separated numeric
  triples.  Version strings used in concrete examples parse identically in
  both.
* Network traffic is modelled by an environment (`LegEnv`) chosen per
  (file, instance) leg: each remote call either returns a value or fails
  with a transport error (`requests.RequestException`).  Exceptions other
  than transport errors (`KeyError` on a remote object without `id`,
  `AttributeError` on a non-dict remote entry) are modelled as the
  `fatal` outcome, which aborts the processing of the current file.
* The in-place mutation of specification field lists
  (`spec_dict["fields"] = ...`) is modelled functionally; re-running the
  normalization on already-normalized data is proved to be the identity,
  which justifies the functional reading across instance legs.
-/

/-- Numeric core of a semantic version, as compared by `semver.VersionInfo`. -/
structure SemVer where
  major : Nat
  minor : Nat
  patch : Nat
deriving DecidableEq

/-- Version `0.0.0`, the default used throughout `sync_script.py`. -/
def v0 : SemVer := ⟨0, 0, 0⟩

/-- Strict semantic-version precedence (`a < b` on `semver.VersionInfo`). -/
def vlt (a b : SemVer) : Bool :=
  decide (a.major < b.major) ||
    (a.major == b.major &&
      (decide (a.minor < b.minor) ||
        (a.minor == b.minor && decide (a.patch < b.patch))))

/-- Splits a character list at every occurrence of `c` (like `str.split`). -/
def splitOnChar (c : Char) : List Char → List (List Char)
  | [] => [[]]
  | x :: rest =>
    let r := splitOnChar c rest
    if x == c then [] :: r
    else
      match r with
      | h :: t => (x :: h) :: t
      | [] => [[x]]

/-- Parses a nonempty all-digit character list as a natural number. -/
def parseNatDigits (ds : List Char) : Option Nat :=
  if ds.isEmpty then none
  else if ds.all Char.isDigit then
    some (ds.foldl (fun a c => a * 10 + (c.toNat - 48)) 0)
  else none

/-- Models `semver.VersionInfo.parse`: a version string parses exactly when
it is three dot-separated numeric components; anything else raises
`ValueError` in the source, modelled as `none`. -/
def parseVersion (s : String) : Option SemVer :=
  match (splitOnChar '.' s.data).map parseNatDigits with
  | [some x, some y, some z] => some ⟨x, y, z⟩
  | _ => none

/-- Python `dict.get` on an association list (first matching key). -/
def alookup {α : Type} : List (String × α) → String → Option α
  | [], _ => none
  | kv :: rest, k => if kv.1 == k then some kv.2 else alookup rest k

/-- Python `d[k] = v` on an association list: overwrites in place when the
key is present (keeping its position), appends otherwise. -/
def aset {α : Type} : List (String × α) → String → α → List (String × α)
  | [], k, v => [(k, v)]
  | kv :: rest, k, v => if kv.1 == k then (k, v) :: rest else kv :: aset rest k v

/-- JSON values as manipulated by the script (Python objects parsed from
JSON: `None`, `bool`, `int`, `str`, `list`, `dict`). -/
inductive Json where
  | null
  | bool (b : Bool)
  | num (n : Int)
  | str (s : String)
  | arr (elems : List Json)
  | obj (members : List (String × Json))

mutual

/-- Python `==` on parsed-JSON values: dictionaries compare by key set and
per-key values (insertion order is irrelevant), and `True`/`False` equal
`1`/`0`.  Keys of a parsed-JSON dictionary are distinct. -/
def pyEq : Json → Json → Bool
  | .null, .null => true
  | .bool a, .bool b => a == b
  | .bool a, .num n => (if a then (1 : Int) else 0) == n
  | .num n, .bool b => n == (if b then (1 : Int) else 0)
  | .num a, .num b => a == b
  | .str a, .str b => a == b
  | .arr xs, .arr ys => pyEqList xs ys
  | .obj a, .obj b => a.length == b.length && pyEqMembers a b
  | _, _ => false

/-- Elementwise Python `==` on lists. -/
def pyEqList : List Json → List Json → Bool
  | [], [] => true
  | x :: xs, y :: ys => pyEq x y && pyEqList xs ys
  | _, _ => false

/-- Checks that every member of the first dictionary occurs, Python-equal,
in the second. -/
def pyEqMembers : List (String × Json) → List (String × Json) → Bool
  | [], _ => true
  | (k, v) :: rest, b =>
    (match alookup b k with
     | some w => pyEq v w
     | none => false) && pyEqMembers rest b

end

mutual

/-- Python `repr` of a parsed-JSON value (string quoting simplified to
plain single quotes; no claim depends on the rendering of containers). -/
def pyRepr : Json → String
  | .null => "None"
  | .bool b => if b then "True" else "False"
  | .num n => toString n
  | .str s => "\x27" ++ s ++ "\x27"
  | .arr xs => "[" ++ pyReprList xs ++ "]"
  | .obj kvs => "\x7b" ++ pyReprMembers kvs ++ "\x7d"

/-- Comma-separated `repr` of list elements. -/
def pyReprList : List Json → String
  | [] => ""
  | [x] => pyRepr x
  | x :: y :: rest => pyRepr x ++ ", " ++ pyReprList (y :: rest)

/-- Comma-separated `repr` of dictionary members. -/
def pyReprMembers : List (String × Json) → String
  | [] => ""
  | [(k, v)] => "\x27" ++ k ++ "\x27: " ++ pyRepr v
  | (k, v) :: m :: rest =>
    "\x27" ++ k ++ "\x27: " ++ pyRepr v ++ ", " ++ pyReprMembers (m :: rest)

end

/-- Python `str()` of a parsed-JSON value, as applied to field names and
values in `sync_format`. -/
def pyStr : Json → String
  | .str s => s
  | j => pyRepr j

/-- Python truthiness of a parsed-JSON value (`if synced_format:`). -/
def pyTruthy : Json → Bool
  | .null => false
  | .bool b => b
  | .num n => n != 0
  | .str s => !s.isEmpty
  | .arr xs => !xs.isEmpty
  | .obj kvs => !kvs.isEmpty

/-- Auxiliary loop of `VersionManager.load_versions`: parses every stored
entry, failing as a whole at the first unparsable version (the loop body
`result[k] = semver.VersionInfo.parse(v)` sits inside one `try`). -/
def loadVersionsCore : List (String × String) → Option (List (String × SemVer))
  | [] => some []
  | (k, s) :: rest =>
    match parseVersion s with
    | none => none
    | some v => (loadVersionsCore rest).map ((k, v) :: ·)

/-- Models `VersionManager.load_versions` on an already-JSON-parsed
`version.json` payload: if any stored version string fails to parse, the
raised `ValueError` is caught by `except Exception` and the whole store is
replaced by the empty mapping. -/
def load_versions (versionData : List (String × String)) : List (String × SemVer) :=
  (loadVersionsCore versionData).getD []

/-- Models `VersionManager.cleanup_versions`: drops entries whose key is
not an existing file; returns the new store and whether `save_versions`
was called (exactly when something was removed). -/
def cleanup_versions (versions : List (String × SemVer)) (existingFiles : List String) :
    List (String × SemVer) × Bool :=
  if versions.any (fun kv => !existingFiles.contains kv.1) then
    (versions.filter (fun kv => existingFiles.contains kv.1), true)
  else (versions, false)

/-- Models `VersionManager.update_version` (persistence always succeeds in
this model; a failing save would abort the whole run). -/
def update_version (versions : List (String × SemVer)) (filename : String) (v : SemVer) :
    List (String × SemVer) :=
  aset versions filename v

/-- Data of one custom-format definition file, following the `FormatData`
TypedDict of the source: each field is present or absent.  `specifications`
is kept as raw JSON because `sync_format` inspects its runtime shape. -/
structure FormatData where
  name : Option String := none
  includeCustomFormatWhenRenaming : Option Bool := none
  specifications : Option Json := none
  cfSync_version : Option String := none
  cfSync_score : Option Int := none
  cfSync_instances : Option (List String) := none
  cfSync_radarr : Option Bool := none
  cfSync_sonarr : Option Bool := none

/-- Models `CustomFormatSyncer.prepare_format_for_sync`: the payload keeps
only `name` (default `""`), `includeCustomFormatWhenRenaming` (default
`False`) and, when present, `specifications`. -/
def prepare_format_for_sync (fd : FormatData) : List (String × Json) :=
  [("name", .str (fd.name.getD "")),
   ("includeCustomFormatWhenRenaming", .bool (fd.includeCustomFormatWhenRenaming.getD false))] ++
  (match fd.specifications with
   | some s => [("specifications", s)]
   | none => [])

/-- Normalization of one `fields` list in `sync_format`: non-dict elements
are skipped; dict elements become `{name, value}` with `str()` coercion and
defaults `"value"` / `""`. -/
def normFieldElems : List Json → List Json
  | [] => []
  | .obj kvs :: rest =>
    .obj [("name", .str (pyStr ((alookup kvs "name").getD (.str "value")))),
          ("value", .str (pyStr ((alookup kvs "value").getD (.str ""))))] :: normFieldElems rest
  | _ :: rest => normFieldElems rest

/-- Normalization of a specification `fields` value in `sync_format`:
a dict becomes the single field named `"value"`, a list is normalized
elementwise, and any other shape is the error case (the source logs and
returns `None` for the whole leg). -/
def normalizeFields : Json → Option Json
  | .obj kvs =>
    some (.arr [.obj [("name", .str "value"),
                      ("value", .str (pyStr ((alookup kvs "value").getD (.str ""))))]])
  | .arr xs => some (.arr (normFieldElems xs))
  | _ => none

/-- Per-specification step of the loop in `sync_format`: non-dict entries
and dicts without `fields` pass through; otherwise the `fields` member is
replaced by its normalization. -/
def normalizeSpec : Json → Option Json
  | .obj kvs =>
    (match alookup kvs "fields" with
     | none => some (.obj kvs)
     | some fv => (normalizeFields fv).map (fun nf => .obj (aset kvs "fields" nf)))
  | j => some j

/-- Normalizes a list of specifications, stopping at the first invalid
`fields` shape. -/
def normalizeSpecList : List Json → Option (List Json)
  | [] => some []
  | s :: rest =>
    match normalizeSpec s with
    | none => none
    | some s2 => (normalizeSpecList rest).map (s2 :: ·)

/-- Normalizes a `specifications` value: only a list is processed (a
non-list passes through, matching the `isinstance(specs_obj, list)` guard). -/
def normalizeSpecs : Json → Option Json
  | .arr xs => (normalizeSpecList xs).map .arr
  | j => some j

/-- Applies the specification normalization of `sync_format` to a prepared
payload, in place. -/
def normalizePayload (newFormat : List (String × Json)) : Option (List (String × Json)) :=
  match alookup newFormat "specifications" with
  | none => some newFormat
  | some specs => (normalizeSpecs specs).map (fun ns => aset newFormat "specifications" ns)

/-- Python `d['k']` on a parsed-JSON value when a dict is expected. -/
def jget (j : Json) (k : String) : Option Json :=
  match j with
  | .obj kvs => alookup kvs k
  | _ => none

/-- Lookup of an existing remote format by name, mirroring
`next((f for f in existing_formats if f.get('name') == new_format.get('name')), None)`.
Encountering a non-dict entry before a match raises (`AttributeError`),
modelled as the error case. -/
def findByName : List Json → Json → Except Unit (Option Json)
  | [], _ => .ok none
  | .obj kvs :: rest, nmv =>
    if pyEq ((alookup kvs "name").getD .null) nmv then .ok (some (.obj kvs))
    else findByName rest nmv
  | _ :: _, _ => .error ()

/-- Decision taken by `CustomFormatSyncer.sync_format` before any write:
abort with no result (`badFields`), raise a non-transport exception
(`fatal`), skip the write (`noOp`), or issue an update / create with the
given payload. -/
inductive SyncPlan where
  | fatal
  | badFields
  | noOp (existing : Json)
  | update (payload : List (String × Json))
  | create (payload : List (String × Json))

/-- Models the control flow of `CustomFormatSyncer.sync_format` up to the
write: find the existing format by name, normalize the payload's
specification fields, then either create, or attach the existing `id` and
update exactly when the payload differs (Python `!=`) from the existing
object. -/
def sync_format_plan (existingFormats : List Json) (newFormat : List (String × Json)) :
    SyncPlan :=
  match findByName existingFormats ((alookup newFormat "name").getD .null) with
  | .error _ => .fatal
  | .ok exOpt =>
    match normalizePayload newFormat with
    | none => .badFields
    | some p2 =>
      match exOpt with
      | none => .create p2
      | some ex =>
        match jget ex "id" with
        | none => .fatal
        | some idv =>
          let p3 := aset p2 "id" idv
          if pyEq (.obj p3) ex then .noOp ex else .update p3

/-- Entry of `QualityProfile.formatItems`, per the source's TypedDict. -/
structure FormatItem where
  format : Int
  score : Int
deriving DecidableEq

/-- Quality profile as fetched from an instance, per the source's
TypedDict. -/
structure QualityProfile where
  id : Int
  name : String
  formatItems : List FormatItem
deriving DecidableEq

/-- Inner loop body of `sync_format_score` for one format item: the score
is overwritten (and the profile marked dirty) exactly when the item's
`format` Python-equals the synced format's id and its score differs. -/
def updateItem (fid : Json) (s : Int) (it : FormatItem) : FormatItem × Bool :=
  if pyEq (.num it.format) fid && it.score != s then ({ it with score := s }, true)
  else (it, false)

/-- Models `CustomFormatSyncer.sync_format_score` on fetched profiles:
returns, in order, the profiles written back via `updateQualityProfile`
(each written in full, with its matching items' scores overwritten). -/
def sync_format_score (profiles : List QualityProfile) (fid : Json) (s : Int) :
    List QualityProfile :=
  profiles.foldl
    (fun writes p =>
      let results := p.formatItems.map (updateItem fid s)
      if results.any Prod.snd then
        writes ++ [{ p with formatItems := results.map Prod.fst }]
      else writes)
    []

/-- Remote behaviour of one (definition, instance) leg: each call either
returns a value or fails with a transport error.  `putProfileOk` tells
whether profile write-backs succeed (a failing write raises a transport
error; which writes were issued before it is not observable here). -/
structure LegEnv where
  getFormats : Except Unit (List Json)
  upsertResp : Except Unit Json
  getProfiles : Except Unit (List QualityProfile)
  putProfileOk : Bool

/-- Outcome of one (definition, instance) leg as seen by the orchestrator:
completed (with the synced format, if any), caught transport error
(`except requests.RequestException: continue`), or a non-transport
exception that propagates to the per-file handler. -/
inductive LegResult where
  | ok (synced : Option Json)
  | transport
  | fatal

/-- Whether a leg outcome aborts the current file's processing. -/
def LegResult.isFatal : LegResult → Bool
  | .fatal => true
  | _ => false

/-- Score-propagation phase of a leg (lines 240-242 and
`sync_format_score`): runs only when a synced format exists (and is truthy)
and the definition declares `cfSync_score`; reads the synced format's `id`
(a missing `id` raises `KeyError`, but only once a profile is iterated),
then writes back every dirty profile. -/
def scorePhase (env : LegEnv) (scoreOpt : Option Int) (sf : Json) : LegResult :=
  match scoreOpt with
  | none => .ok (some sf)
  | some s =>
    if pyTruthy sf then
      match env.getProfiles with
      | .error _ => .transport
      | .ok profiles =>
        match profiles with
        | [] => .ok (some sf)
        | _ :: _ =>
          match jget sf "id" with
          | none => .fatal
          | some fid =>
            if (sync_format_score profiles fid s).isEmpty || env.putProfileOk then .ok (some sf)
            else .transport
    else .ok (some sf)

/-- Runs one (definition, instance) leg (the body of the `try` at lines
235-244): fetch existing formats, plan and perform the sync, then
propagate the score. -/
def runLeg (env : LegEnv) (fd : FormatData) : LegResult :=
  match env.getFormats with
  | .error _ => .transport
  | .ok existing =>
    match sync_format_plan existing (prepare_format_for_sync fd) with
    | .fatal => .fatal
    | .badFields => .ok none
    | .noOp ex => scorePhase env fd.cfSync_score ex
    | .update _ =>
      (match env.upsertResp with
       | .error _ => .transport
       | .ok r => scorePhase env fd.cfSync_score r)
    | .create _ =>
      (match env.upsertResp with
       | .error _ => .transport
       | .ok r => scorePhase env fd.cfSync_score r)

/-- Substring test, modelling Python `needle in haystack` on strings. -/
def isSubList (needle : List Char) : List Char → Bool
  | [] => needle.isEmpty
  | b :: bs => needle.isPrefixOf (b :: bs) || isSubList needle bs

/-- Python `'Radarr' in instance_name`. -/
def strContains (hay needle : String) : Bool := isSubList needle.data hay.data

/-- Python `instance_name.split('_')[-1]`. -/
def lastComponent (s : String) : String := String.mk ((splitOnChar '_' s.data).getLastD [])

/-- Models `CustomFormatSyncer.should_sync_to_instance`. -/
def should_sync_to_instance (fd : FormatData) (instanceName : String) : Bool :=
  match fd.cfSync_instances with
  | some insts => insts.contains instanceName || insts.contains (lastComponent instanceName)
  | none =>
    if strContains instanceName "Radarr" then fd.cfSync_radarr.getD true
    else fd.cfSync_sonarr.getD true

/-- One step of the latest-version scan of `sync_custom_formats` (lines
199-209): the template file is skipped, an unparsable declared version is
skipped (`except ValueError: continue`), and a strictly greater version
replaces the running maximum. -/
def latestStep (latest : SemVer) (d : String × FormatData) : SemVer :=
  if d.1 == "_template.json" then latest
  else
    match parseVersion (d.2.cfSync_version.getD "0.0.0") with
    | none => latest
    | some version => if vlt latest version then version else latest

/-- Latest-version scan of `sync_custom_formats` (lines 198-209): the
maximum declared version over non-template definitions, ignoring
unparsable version strings, starting from `0.0.0`. -/
def computeLatest (defs : List (String × FormatData)) : SemVer :=
  defs.foldl latestStep v0

/-- Instance loop for one due definition (lines 229-247): eligible legs run
in order; a transport error is caught and the loop continues; a fatal leg
aborts the loop.  Returns the legs attempted (filename, instance) and
whether the loop completed without a fatal exception. -/
def runInstances (env : String → LegEnv) (f : String) (fd : FormatData) :
    List String → List (String × String) × Bool
  | [] => ([], true)
  | i :: rest =>
    if should_sync_to_instance fd i then
      if (runLeg (env i) fd).isFatal then ([(f, i)], false)
      else
        let r := runInstances env f fd rest
        ((f, i) :: r.1, r.2)
    else runInstances env f fd rest

/-- Accumulated run state: version store, files that entered the sync
branch, and attempted (file, instance) legs. -/
abbrev SyncAcc := List (String × SemVer) × List String × List (String × String)

/-- Per-definition step of the main loop (lines 211-259): skip the
template, skip files with an unparsable declared version (`ValueError`),
decide due-ness against the stored version and the batch-wide latest
version, run the instance legs, and record the file's version unless a
non-transport exception aborted the file. -/
def syncStep (env : String → String → LegEnv) (instances : List String)
    (latestVersion : SemVer) (acc : SyncAcc) (d : String × FormatData) : SyncAcc :=
  if d.1 == "_template.json" then acc
  else
    match parseVersion (d.2.cfSync_version.getD "0.0.0") with
    | none => acc
    | some fileVersion =>
      let storedVersion := (alookup acc.1 d.1).getD v0
      if vlt storedVersion fileVersion || vlt fileVersion latestVersion then
        let r := runInstances (env d.1) d.1 d.2 instances
        ((if r.2 then update_version acc.1 d.1 fileVersion else acc.1),
         acc.2.1 ++ [d.1], acc.2.2 ++ r.1)
      else acc

/-- Observable outcome of one run of `sync_custom_formats`. -/
structure RunResult where
  versions : List (String × SemVer)
  synced : List String
  legs : List (String × String)
  latest : SemVer

/-- Models `CustomFormatSyncer.sync_custom_formats` over loaded
definitions, configured instances and the loaded version store: early
return on an empty batch, prune the store, compute the batch-wide latest
version, then process each definition in order. -/
def sync_custom_formats (env : String → String → LegEnv)
    (customFormats : List (String × FormatData)) (instances : List String)
    (store : List (String × SemVer)) : RunResult :=
  match customFormats with
  | [] => ⟨store, [], [], v0⟩
  | _ :: _ =>
    let store1 := (cleanup_versions store (customFormats.map Prod.fst)).1
    let latestVersion := computeLatest customFormats
    let r := customFormats.foldl (syncStep env instances latestVersion) (store1, [], [])
    ⟨r.1, r.2.1, r.2.2, latestVersion⟩

/-! Helper lemmas about association lists and the version store. -/

theorem alookup_aset_self {α : Type} (l : List (String × α)) (k : String) (v : α) :
    alookup (aset l k v) k = some v := by
  induction l with
  | nil => simp [aset, alookup]
  | cons kv rest ih =>
    by_cases h : kv.1 == k
    · simp [aset, alookup, h]
    · simp [aset, alookup, h, ih]

theorem alookup_aset_ne {α : Type} (l : List (String × α)) (k k2 : String) (v : α)
    (h : k ≠ k2) : alookup (aset l k v) k2 = alookup l k2 := by
  induction l with
  | nil => simp [aset, alookup, h]
  | cons kv rest ih =>
    by_cases hk : kv.1 == k
    · have hkeq : kv.1 = k := by simpa using hk
      simp [aset, alookup, hk, hkeq, h]
    · simp [aset, alookup, hk, ih]

theorem alookup_filter_key {α : Type} (l : List (String × α)) (p : String → Bool) (k : String)
    (hk : p k = true) : alookup (l.filter (fun kv => p kv.1)) k = alookup l k := by
  induction l with
  | nil => simp
  | cons kv rest ih =>
    by_cases hkv : kv.1 == k
    · have hkeq : kv.1 = k := by simpa using hkv
      simp [List.filter, hkeq, hk, alookup, ih]
    · cases hp : p kv.1 <;> simp [List.filter, hp, alookup, hkv, ih]

theorem cleanup_preserves_existing (store : List (String × SemVer)) (files : List String)
    (f : String) (hf : files.contains f = true) :
    alookup (cleanup_versions store files).1 f = alookup store f := by
  unfold cleanup_versions
  by_cases h : store.any (fun kv => !files.contains kv.1)
  · simp only [h, if_true]
    exact alookup_filter_key store (fun k => files.contains k) f hf
  · rw [if_neg h]

/-- Claim C7: after pruning the version store against the current set of
filenames, every remaining key is a member of the current filename set,
every removed key was absent from the current filename set, and the store
is persisted if and only if at least one key was removed. -/
theorem C7_prune_invariant (versions : List (String × SemVer)) (existingFiles : List String) :
    (∀ kv ∈ (cleanup_versions versions existingFiles).1, kv.1 ∈ existingFiles) ∧
    (∀ kv ∈ versions, kv ∉ (cleanup_versions versions existingFiles).1 →
      kv.1 ∉ existingFiles) ∧
    ((cleanup_versions versions existingFiles).2 = true ↔
      ∃ kv ∈ versions, kv.1 ∉ existingFiles) := by
  unfold cleanup_versions
  by_cases h : versions.any (fun kv => !existingFiles.contains kv.1)
  · rw [if_pos h]
    refine ⟨?_, ?_, ?_⟩
    · intro kv hkv
      have := List.of_mem_filter hkv
      simpa using this
    · intro kv hkv hnot
      intro hmem
      exact hnot (List.mem_filter.2 ⟨hkv, by simpa using hmem⟩)
    · simp only [true_iff]
      rcases List.any_eq_true.1 h with ⟨kv, hkv, hp⟩
      exact ⟨kv, hkv, by simpa using hp⟩
  · rw [if_neg h]
    have hall : ∀ kv ∈ versions, kv.1 ∈ existingFiles := by
      intro kv hkv
      have := fun hp => h (List.any_eq_true.2 ⟨kv, hkv, hp⟩)
      by_contra hmem
      exact this (by simpa using hmem)
    refine ⟨hall, ?_, ?_⟩
    · intro kv hkv hnot
      exact absurd hkv hnot
    · constructor
      · intro h2
        simp at h2
      · rintro ⟨kv, hkv, hmem⟩
        exact absurd (hall kv hkv) hmem

/-- Witness for C7 at a concrete store and filename set: the store is
persisted because `b.json` was removed. -/
theorem C7_prune_invariant_witness :
    (cleanup_versions [("a.json", ⟨1, 0, 0⟩), ("b.json", ⟨2, 0, 0⟩)] ["a.json"]).2 = true :=
  (C7_prune_invariant [("a.json", ⟨1, 0, 0⟩), ("b.json", ⟨2, 0, 0⟩)] ["a.json"]).2.2.mpr
    ⟨("b.json", ⟨2, 0, 0⟩), by decide, by decide⟩

/-- Counterexample to claim C3: in the persisted version data below,
`b.json` holds an unparsable version string while `a.json` holds the
perfectly parsable `1.0.0`; the claim asserts that `a.json`'s entry is
still loaded, but `load_versions` discards the whole store. -/
theorem C3_counterexample :
    parseVersion "1.0.0" = some ⟨1, 0, 0⟩ ∧
    load_versions [("a.json", "1.0.0"), ("b.json", "bogus")] = [] ∧
    alookup (load_versions [("a.json", "1.0.0"), ("b.json", "bogus")]) "a.json" = none := by
  refine ⟨by decide, by decide, by decide⟩

theorem loadVersionsCore_none_of_bad (versionData : List (String × String))
    (kv : String × String) (hkv : kv ∈ versionData) (hbad : parseVersion kv.2 = none) :
    loadVersionsCore versionData = none := by
  induction versionData with
  | nil => cases hkv
  | cons d rest ih =>
    obtain ⟨dk, ds⟩ := d
    rcases List.mem_cons.1 hkv with hkv2 | hkv2
    · subst hkv2
      unfold loadVersionsCore
      rw [hbad]
    · unfold loadVersionsCore
      cases hp : parseVersion ds
      · rfl
      · rw [ih hkv2]
        rfl

theorem loadVersionsCore_all_parsed (versionData : List (String × String))
    (h : ∀ kv ∈ versionData, (parseVersion kv.2).isSome) :
    ∃ l, loadVersionsCore versionData = some l ∧
      List.Forall₂ (fun (kv : String × String) (entry : String × SemVer) =>
        entry.1 = kv.1 ∧ parseVersion kv.2 = some entry.2) versionData l := by
  induction versionData with
  | nil => exact ⟨[], rfl, List.Forall₂.nil⟩
  | cons d rest ih =>
    obtain ⟨dk, ds⟩ := d
    have hd := h (dk, ds) (List.mem_cons_self (dk, ds) rest)
    rcases hv : parseVersion ds with _ | v
    · rw [hv] at hd; cases hd
    · rcases ih (fun kv hkv => h kv (List.mem_cons_of_mem (dk, ds) hkv)) with ⟨l, hl, hfa⟩
      refine ⟨(dk, v) :: l, ?_, List.Forall₂.cons ⟨rfl, hv⟩ hfa⟩
      unfold loadVersionsCore
      rw [hv, hl]
      rfl

/-- Amended claim C3: a stored version string that fails to parse is not a
per-file condition — the `ValueError` escapes the per-entry loop and the
`except Exception` handler replaces the whole store with the empty mapping
(the run then continues with an empty store); when every entry parses, all
entries are loaded intact. -/
theorem C3_parse_failure_resets_whole_store (versionData : List (String × String)) :
    ((∃ kv ∈ versionData, parseVersion kv.2 = none) → load_versions versionData = []) ∧
    ((∀ kv ∈ versionData, (parseVersion kv.2).isSome) →
      List.Forall₂ (fun (kv : String × String) (entry : String × SemVer) =>
        entry.1 = kv.1 ∧ parseVersion kv.2 = some entry.2) versionData
        (load_versions versionData)) := by
  constructor
  · rintro ⟨kv, hkv, hbad⟩
    unfold load_versions
    rw [loadVersionsCore_none_of_bad versionData kv hkv hbad]
    rfl
  · intro h
    rcases loadVersionsCore_all_parsed versionData h with ⟨l, hl, hfa⟩
    unfold load_versions
    rw [hl]
    exact hfa

/-- Witness for the amended C3 at a concrete store: one bogus entry resets
the whole store to empty. -/
theorem C3_parse_failure_resets_whole_store_witness :
    load_versions [("a.json", "1.0.0"), ("b.json", "bogus")] = [] :=
  (C3_parse_failure_resets_whole_store [("a.json", "1.0.0"), ("b.json", "bogus")]).1
    ⟨("b.json", "bogus"), by decide, by decide⟩

/-! Normalization of specification fields (claims C4, C9, C10). -/

theorem normFieldElems_eq_filterMap (xs : List Json) :
    normFieldElems xs = xs.filterMap (fun j =>
      match j with
      | .obj kvs => some (.obj
          [("name", .str (pyStr ((alookup kvs "name").getD (.str "value")))),
           ("value", .str (pyStr ((alookup kvs "value").getD (.str ""))))])
      | _ => none) := by
  induction xs with
  | nil => rfl
  | cons x rest ih =>
    cases x <;> simp [normFieldElems, List.filterMap_cons, ih]

theorem normFieldElems_shape (xs : List Json) :
    ∀ y ∈ normFieldElems xs, ∃ n w, y = .obj [("name", .str n), ("value", .str w)] := by
  induction xs with
  | nil => intro y hy; cases hy
  | cons x rest ih =>
    intro y hy
    cases x with
    | obj kvs =>
      rcases List.mem_cons.1 hy with hy2 | hy2
      · exact ⟨_, _, hy2⟩
      · exact ih y hy2
    | null => exact ih y hy
    | bool b => exact ih y hy
    | num n => exact ih y hy
    | str s => exact ih y hy
    | arr es => exact ih y hy

theorem normFieldElems_idem (xs : List Json) :
    normFieldElems (normFieldElems xs) = normFieldElems xs := by
  induction xs with
  | nil => rfl
  | cons x rest ih =>
    cases x <;> simp [normFieldElems, ih, alookup, pyStr]

/-- Claim C9: specification-field normalization is idempotent — whenever a
`fields` value normalizes successfully, the normalized result normalizes
again to itself. -/
theorem C9_normalization_idempotent (j j2 : Json) (h : normalizeFields j = some j2) :
    normalizeFields j2 = some j2 := by
  cases j with
  | null => simp [normalizeFields] at h
  | bool b => simp [normalizeFields] at h
  | num n => simp [normalizeFields] at h
  | str s => simp [normalizeFields] at h
  | obj kvs =>
    simp only [normalizeFields, Option.some.injEq] at h
    subst h
    simp [normalizeFields, normFieldElems, alookup, pyStr]
  | arr xs =>
    simp only [normalizeFields, Option.some.injEq] at h
    subst h
    simp [normalizeFields, normFieldElems_idem]

/-- Witness for C9 at the spec's own scenario: normalizing the normalized
form of the legacy dict shape is the identity. -/
theorem C9_normalization_idempotent_witness :
    normalizeFields (.arr [.obj [("name", .str "value"), ("value", .str "abc")]]) =
      some (.arr [.obj [("name", .str "value"), ("value", .str "abc")]]) :=
  C9_normalization_idempotent (.obj [("value", .str "abc")])
    (.arr [.obj [("name", .str "value"), ("value", .str "abc")]]) rfl

/-- Claim C10: when a specification's `fields` is a list, non-dict
elements are silently dropped (no error for the leg), and each dict
element yields a field whose name defaults to `"value"` and whose value
defaults to `""`, both coerced by `str()`. -/
theorem C10_list_fields_elementwise :
    (∀ xs : List Json, normalizeFields (.arr xs) =
      some (.arr (xs.filterMap (fun j =>
        match j with
        | .obj kvs => some (.obj
            [("name", .str (pyStr ((alookup kvs "name").getD (.str "value")))),
             ("value", .str (pyStr ((alookup kvs "value").getD (.str ""))))])
        | _ => none)))) ∧
    (∀ (pre post : List Json) (j : Json), (∀ kvs, j ≠ .obj kvs) →
      normFieldElems (pre ++ j :: post) = normFieldElems (pre ++ post)) := by
  constructor
  · intro xs
    rw [normalizeFields, normFieldElems_eq_filterMap]
  · intro pre post j hj
    induction pre with
    | nil =>
      cases j with
      | obj kvs => exact absurd rfl (hj kvs)
      | null => rfl
      | bool b => rfl
      | num n => rfl
      | str s => rfl
      | arr es => rfl
    | cons x rest ih =>
      cases x <;> simp [normFieldElems, ih]

/-- Witness for C10: a non-dict element (`3`) between two dict elements is
dropped without error. -/
theorem C10_list_fields_elementwise_witness :
    normFieldElems [.obj [("name", .str "a"), ("value", .str "1")], .num 3,
        .obj [("name", .str "b"), ("value", .str "2")]] =
      normFieldElems [.obj [("name", .str "a"), ("value", .str "1")],
        .obj [("name", .str "b"), ("value", .str "2")]] :=
  C10_list_fields_elementwise.2 [.obj [("name", .str "a"), ("value", .str "1")]]
    [.obj [("name", .str "b"), ("value", .str "2")]] (.num 3)
    (fun _ h => Json.noConfusion h)

/-- Counterexample to claim C4: for the single-object shape with a
non-string member, `{"value": 5}`, the code produces the field value
`str(5) = "5"`, not the original member `5` that the claim states. -/
theorem C4_counterexample :
    normalizeFields (.obj [("value", .num 5)]) =
      some (.arr [.obj [("name", .str "value"), ("value", .str "5")]]) ∧
    normalizeFields (.obj [("value", .num 5)]) ≠
      some (.arr [.obj [("name", .str "value"), ("value", .num 5)]]) := by
  constructor
  · rfl
  · intro h
    have h2 : (some (Json.arr [Json.obj [("name", Json.str "value"),
          ("value", Json.str "5")]]) : Option Json) =
        some (Json.arr [Json.obj [("name", Json.str "value"), ("value", Json.num 5)]]) := h
    simp at h2

/-- Amended claim C4: normalization maps the single-object shape
`{"value": v}` to `[{"name": "value", "value": str(v)}]` — the member is
coerced to its string form (so for a string `v` the claim's shape is exact);
list shapes stay lists of `{name, value}` string pairs; and for any shape
that is neither an object nor a list the leg produces no synced result
without raising, so other definitions and instances continue. -/
theorem C4_fields_shape_normalization :
    (∀ v : Json, normalizeFields (.obj [("value", v)]) =
      some (.arr [.obj [("name", .str "value"), ("value", .str (pyStr v))]])) ∧
    (∀ xs : List Json, ∃ ys, normalizeFields (.arr xs) = some (.arr ys) ∧
      ∀ y ∈ ys, ∃ n w, y = .obj [("name", .str n), ("value", .str w)]) ∧
    (∀ j : Json, (∀ kvs, j ≠ .obj kvs) → (∀ xs, j ≠ .arr xs) →
      normalizeFields j = none) ∧
    (∀ (env : LegEnv) (fd : FormatData) (existing : List Json),
      env.getFormats = .ok existing →
      sync_format_plan existing (prepare_format_for_sync fd) = .badFields →
      runLeg env fd = .ok none) := by
  refine ⟨?_, ?_, ?_, ?_⟩
  · intro v
    simp [normalizeFields, alookup]
  · intro xs
    exact ⟨normFieldElems xs, rfl, normFieldElems_shape xs⟩
  · intro j hobj harr
    cases j with
    | obj kvs => exact absurd rfl (hobj kvs)
    | arr es => exact absurd rfl (harr es)
    | null => rfl
    | bool b => rfl
    | num n => rfl
    | str s => rfl
  · intro env fd existing henv hplan
    simp only [runLeg, henv, hplan]

/-- Witness for the amended C4: the spec's scenario `{"value": "abc"}`,
a non-list non-dict shape, and a concrete leg whose specification has an
invalid `fields` shape and completes with no synced result. -/
theorem C4_fields_shape_normalization_witness :
    normalizeFields (.obj [("value", .str "abc")]) =
      some (.arr [.obj [("name", .str "value"), ("value", .str "abc")]]) ∧
    normalizeFields (.str "zz") = none ∧
    runLeg ⟨.ok [], .error (), .error (), true⟩
      { specifications := some (.arr [.obj [("fields", .num 3)]]) } = .ok none := by
  refine ⟨C4_fields_shape_normalization.1 (.str "abc"), ?_, ?_⟩
  · exact C4_fields_shape_normalization.2.2.1 (.str "zz")
      (fun _ h => Json.noConfusion h) (fun _ h => Json.noConfusion h)
  · exact C4_fields_shape_normalization.2.2.2 ⟨.ok [], .error (), .error (), true⟩
      { specifications := some (.arr [.obj [("fields", .num 3)]]) } [] rfl rfl

/-! Score propagation (claim C5). -/

theorem updateItem_fst (fid : Json) (s : Int) (it : FormatItem) :
    (updateItem fid s it).1 =
      (if pyEq (.num it.format) fid && it.score != s then { it with score := s } else it) := by
  unfold updateItem
  by_cases h : pyEq (.num it.format) fid && it.score != s <;> simp [h]

theorem updateItem_snd (fid : Json) (s : Int) (it : FormatItem) :
    (updateItem fid s it).2 = (pyEq (.num it.format) fid && it.score != s) := by
  unfold updateItem
  by_cases h : pyEq (.num it.format) fid && it.score != s <;> simp [h]

theorem sync_format_score_foldl (profiles : List QualityProfile) (fid : Json) (s : Int)
    (acc : List QualityProfile) :
    profiles.foldl
      (fun writes p =>
        let results := p.formatItems.map (updateItem fid s)
        if results.any Prod.snd then
          writes ++ [{ p with formatItems := results.map Prod.fst }]
        else writes)
      acc =
    acc ++ (profiles.filter (fun p =>
        p.formatItems.any (fun it => pyEq (.num it.format) fid && it.score != s))).map
      (fun p => { p with formatItems := p.formatItems.map (fun it =>
        if pyEq (.num it.format) fid && it.score != s then { it with score := s } else it) }) := by
  induction profiles generalizing acc with
  | nil => simp
  | cons p rest ih =>
    have hany : ∀ l : List FormatItem, (l.map (updateItem fid s)).any Prod.snd =
        l.any (fun it => pyEq (.num it.format) fid && it.score != s) := by
      intro l
      induction l with
      | nil => rfl
      | cons it rl ihl => simp only [List.map_cons, List.any_cons, ihl, updateItem_snd]
    have hmap : ∀ l : List FormatItem, (l.map (updateItem fid s)).map Prod.fst =
        l.map (fun it =>
          if pyEq (.num it.format) fid && it.score != s then { it with score := s } else it) := by
      intro l
      induction l with
      | nil => rfl
      | cons it rl ihl => simp only [List.map_cons, ihl, updateItem_fst]
    simp only [List.foldl_cons]
    by_cases hp : p.formatItems.any (fun it => pyEq (.num it.format) fid && it.score != s) = true
    · rw [List.filter_cons_of_pos (by simpa using hp), ih]
      simp only [hany, hmap, hp, if_true]
      simp
    · have hp2 : p.formatItems.any (fun it => pyEq (.num it.format) fid && it.score != s) =
          false := by simpa using hp
      rw [List.filter_cons_of_neg (by simpa using hp), ih]
      simp only [hany, hmap, hp2, Bool.false_eq_true, if_false]

/-- Claim C5: during score propagation, a quality profile is written back
in full via `updateQualityProfile` if and only if at least one of its
format items references the synced format's id with a score different from
the declared one; all other profiles are left untouched.  The write list of
`sync_format_score` is exactly the dirty profiles, each with its matching
items' scores overwritten and everything else intact. -/
theorem C5_profile_written_iff_dirty (profiles : List QualityProfile) (fid : Json) (s : Int) :
    sync_format_score profiles fid s =
      (profiles.filter (fun p =>
        p.formatItems.any (fun it => pyEq (.num it.format) fid && it.score != s))).map
      (fun p => { p with formatItems := p.formatItems.map (fun it =>
        if pyEq (.num it.format) fid && it.score != s then { it with score := s } else it) }) := by
  unfold sync_format_score
  simpa using sync_format_score_foldl profiles fid s []

/-! The create/update/skip decision of `sync_format` (claim C2). -/

/-- Counterexample to claim C2: the remote instance below has a format
named `x` that agrees with the local definition on every synced field
(name, include-in-renaming flag, specifications) but carries one
additional member `extra`; `sync_format` nevertheless issues an update,
because its no-op test is whole-dict equality against the remote object.
The first three conjuncts exhibit the agreement, the last one the update
call that the claim rules out. -/
theorem C2_counterexample :
    (alookup [("name", Json.str "x"), ("includeCustomFormatWhenRenaming", Json.bool false),
        ("specifications", Json.arr []), ("id", Json.num 5), ("extra", Json.num 1)] "name" =
      some (.str "x")) ∧
    (alookup [("name", Json.str "x"), ("includeCustomFormatWhenRenaming", Json.bool false),
        ("specifications", Json.arr []), ("id", Json.num 5), ("extra", Json.num 1)]
        "includeCustomFormatWhenRenaming" = some (.bool false)) ∧
    (alookup [("name", Json.str "x"), ("includeCustomFormatWhenRenaming", Json.bool false),
        ("specifications", Json.arr []), ("id", Json.num 5), ("extra", Json.num 1)]
        "specifications" = some (.arr [])) ∧
    sync_format_plan
      [.obj [("name", Json.str "x"), ("includeCustomFormatWhenRenaming", Json.bool false),
             ("specifications", Json.arr []), ("id", Json.num 5), ("extra", Json.num 1)]]
      (prepare_format_for_sync
        { name := some "x", includeCustomFormatWhenRenaming := some false,
          specifications := some (.arr []) }) =
    .update [("name", Json.str "x"), ("includeCustomFormatWhenRenaming", Json.bool false),
             ("specifications", Json.arr []), ("id", Json.num 5)] := by
  refine ⟨rfl, rfl, rfl, ?_⟩
  simp [sync_format_plan, prepare_format_for_sync, findByName, alookup, normalizePayload,
    normalizeSpecs, normalizeSpecList, jget, aset, pyEq, pyEqList, pyEqMembers]

/-- Amended claim C2: for a (definition, instance) leg where a remote
format with the same name exists (and carries an `id`), `sync_format`
skips the write and returns the existing remote object exactly when the
normalized, id-attached payload equals the existing object as a whole
Python dict — same key set and Python-equal values, including members
outside the synced fields; otherwise it issues an update with that
payload.  Agreement on the synced fields alone does not suffice. -/
theorem C2_noop_iff_whole_object_equal (existingFormats : List Json)
    (newFormat : List (String × Json)) (exObj : Json) (p2 : List (String × Json)) (idv : Json)
    (hfind : findByName existingFormats ((alookup newFormat "name").getD .null) =
      .ok (some exObj))
    (hnorm : normalizePayload newFormat = some p2)
    (hid : jget exObj "id" = some idv) :
    (sync_format_plan existingFormats newFormat = .noOp exObj ↔
      pyEq (.obj (aset p2 "id" idv)) exObj = true) ∧
    (pyEq (.obj (aset p2 "id" idv)) exObj = false →
      sync_format_plan existingFormats newFormat = .update (aset p2 "id" idv)) := by
  unfold sync_format_plan
  rw [hfind, hnorm]
  simp only []
  rw [hid]
  simp only []
  by_cases h : pyEq (.obj (aset p2 "id" idv)) exObj = true
  · refine ⟨⟨fun _ => h, fun _ => ?_⟩, fun hf => ?_⟩
    · simp [h]
    · rw [h] at hf; cases hf
  · have h2 : pyEq (.obj (aset p2 "id" idv)) exObj = false := by
      simpa using h
    refine ⟨⟨fun hh => ?_, fun hh => ?_⟩, fun _ => ?_⟩
    · rw [if_neg h] at hh
      cases hh
    · rw [hh] at h2; cases h2
    · rw [if_neg h]

/-- Witness for the amended C2: a remote object equal to the id-attached
payload on the nose is detected as a no-op (no create, no update), and the
existing object is the synced result. -/
theorem C2_noop_iff_whole_object_equal_witness :
    sync_format_plan
      [.obj [("name", Json.str "x"), ("includeCustomFormatWhenRenaming", Json.bool false),
             ("specifications", Json.arr []), ("id", Json.num 5)]]
      (prepare_format_for_sync
        { name := some "x", includeCustomFormatWhenRenaming := some false,
          specifications := some (.arr []) }) =
    .noOp (.obj [("name", Json.str "x"), ("includeCustomFormatWhenRenaming", Json.bool false),
                 ("specifications", Json.arr []), ("id", Json.num 5)]) := by
  refine (C2_noop_iff_whole_object_equal _ _ _
      [("name", Json.str "x"), ("includeCustomFormatWhenRenaming", Json.bool false),
       ("specifications", Json.arr [])] (Json.num 5)
      (by simp [findByName, prepare_format_for_sync, alookup, pyEq])
      (by simp [normalizePayload, prepare_format_for_sync, alookup, normalizeSpecs,
            normalizeSpecList, aset])
      (by simp [jget, alookup])).1.mpr ?_
  simp [aset, pyEq, pyEqMembers, pyEqList, alookup]

/-! Lemmas about the main loop (claims C1, C6, C8). -/

theorem runInstances_complete (env : String → LegEnv) (f : String) (fd : FormatData)
    (insts : List String) (h : ∀ i ∈ insts, (runLeg (env i) fd).isFatal = false) :
    (runInstances env f fd insts).2 = true := by
  induction insts with
  | nil => rfl
  | cons i rest ih =>
    have hi := h i (List.mem_cons_self i rest)
    have ih2 := ih (fun j hj => h j (List.mem_cons_of_mem i hj))
    unfold runInstances
    cases hs : should_sync_to_instance fd i
    · simpa [hs] using ih2
    · simp [hs, hi, ih2]

theorem runInstances_keys (env : String → LegEnv) (f : String) (fd : FormatData)
    (insts : List String) :
    ∀ lg ∈ (runInstances env f fd insts).1, lg.1 = f := by
  induction insts with
  | nil => intro lg hlg; cases hlg
  | cons i rest ih =>
    intro lg hlg
    unfold runInstances at hlg
    cases hs : should_sync_to_instance fd i
    · rw [hs] at hlg
      simp only [Bool.false_eq_true, if_false] at hlg
      exact ih lg hlg
    · rw [hs] at hlg
      simp only [if_true] at hlg
      cases hf : (runLeg (env i) fd).isFatal
      · rw [hf] at hlg
        simp only [Bool.false_eq_true, if_false] at hlg
        rcases List.mem_cons.1 hlg with h1 | h1
        · rw [h1]
        · exact ih lg h1
      · rw [hf] at hlg
        simp only [if_true, List.mem_singleton] at hlg
        rw [hlg]

theorem syncStep_template (env : String → String → LegEnv) (instances : List String)
    (latestVersion : SemVer) (acc : SyncAcc) (d : String × FormatData)
    (h : d.1 = "_template.json") :
    syncStep env instances latestVersion acc d = acc := by
  unfold syncStep
  rw [if_pos (by simp [h])]

theorem syncStep_versions_ne (env : String → String → LegEnv) (instances : List String)
    (latestVersion : SemVer) (acc : SyncAcc) (d : String × FormatData) (f : String)
    (h : d.1 ≠ f) :
    alookup (syncStep env instances latestVersion acc d).1 f = alookup acc.1 f := by
  unfold syncStep
  cases ht : (d.1 == "_template.json")
  · simp only [ht, Bool.false_eq_true, if_false]
    cases hp : parseVersion (d.2.cfSync_version.getD "0.0.0") with
    | none => rfl
    | some fv =>
      simp only []
      cases hc : (vlt ((alookup acc.1 d.1).getD v0) fv || vlt fv latestVersion)
      · simp only [hc, Bool.false_eq_true, if_false]
      · simp only [hc, if_true]
        cases hr : (runInstances (env d.1) d.1 d.2 instances).2
        · simp only [hr, Bool.false_eq_true, if_false]
        · simp only [hr, if_true, update_version]
          exact alookup_aset_ne acc.1 d.1 f fv h
  · simp only [ht, if_true]

theorem syncStep_synced_ne (env : String → String → LegEnv) (instances : List String)
    (latestVersion : SemVer) (acc : SyncAcc) (d : String × FormatData) (f : String)
    (h : d.1 ≠ f) :
    (f ∈ (syncStep env instances latestVersion acc d).2.1 ↔ f ∈ acc.2.1) := by
  unfold syncStep
  cases ht : (d.1 == "_template.json")
  · simp only [ht, Bool.false_eq_true, if_false]
    cases hp : parseVersion (d.2.cfSync_version.getD "0.0.0") with
    | none => exact Iff.rfl
    | some fv =>
      simp only []
      cases hc : (vlt ((alookup acc.1 d.1).getD v0) fv || vlt fv latestVersion)
      · simp only [hc, Bool.false_eq_true, if_false]
      · simp only [hc, if_true, List.mem_append, List.mem_singleton]
        constructor
        · rintro (h1 | h1)
          · exact h1
          · exact absurd h1.symm h
        · intro h1
          exact Or.inl h1
  · simp only [ht, if_true]

theorem syncStep_legs_sub (env : String → String → LegEnv) (instances : List String)
    (latestVersion : SemVer) (acc : SyncAcc) (d : String × FormatData) :
    ∀ lg ∈ (syncStep env instances latestVersion acc d).2.2, lg ∈ acc.2.2 ∨ lg.1 = d.1 := by
  intro lg hlg
  unfold syncStep at hlg
  cases ht : (d.1 == "_template.json")
  · rw [ht] at hlg
    simp only [Bool.false_eq_true, if_false] at hlg
    cases hp : parseVersion (d.2.cfSync_version.getD "0.0.0") with
    | none => rw [hp] at hlg; exact Or.inl hlg
    | some fv =>
      rw [hp] at hlg
      simp only [] at hlg
      cases hc : (vlt ((alookup acc.1 d.1).getD v0) fv || vlt fv latestVersion)
      · rw [hc] at hlg
        simp only [Bool.false_eq_true, if_false] at hlg
        exact Or.inl hlg
      · rw [hc] at hlg
        simp only [if_true, List.mem_append] at hlg
        rcases hlg with h1 | h1
        · exact Or.inl h1
        · exact Or.inr (runInstances_keys (env d.1) d.1 d.2 instances lg h1)
  · rw [ht] at hlg
    simp only [if_true] at hlg
    exact Or.inl hlg

theorem foldl_versions_of_not_key (env : String → String → LegEnv) (instances : List String)
    (latestVersion : SemVer) (f : String) :
    ∀ (defs : List (String × FormatData)) (acc : SyncAcc), f ∉ defs.map Prod.fst →
      alookup (defs.foldl (syncStep env instances latestVersion) acc).1 f = alookup acc.1 f := by
  intro defs
  induction defs with
  | nil => intro acc _; rfl
  | cons d rest ih =>
    intro acc hnot
    have hd : d.1 ≠ f := by
      intro hh
      exact hnot (hh ▸ List.mem_map_of_mem Prod.fst (List.mem_cons_self d rest))
    have hrest : f ∉ rest.map Prod.fst := fun hh => hnot (List.mem_cons_of_mem _ hh)
    rw [List.foldl_cons, ih _ hrest]
    exact syncStep_versions_ne env instances latestVersion acc d f hd

theorem foldl_synced_of_not_key (env : String → String → LegEnv) (instances : List String)
    (latestVersion : SemVer) (f : String) :
    ∀ (defs : List (String × FormatData)) (acc : SyncAcc), f ∉ defs.map Prod.fst →
      (f ∈ (defs.foldl (syncStep env instances latestVersion) acc).2.1 ↔ f ∈ acc.2.1) := by
  intro defs
  induction defs with
  | nil => intro acc _; exact Iff.rfl
  | cons d rest ih =>
    intro acc hnot
    have hd : d.1 ≠ f := by
      intro hh
      exact hnot (hh ▸ List.mem_map_of_mem Prod.fst (List.mem_cons_self d rest))
    have hrest : f ∉ rest.map Prod.fst := fun hh => hnot (List.mem_cons_of_mem _ hh)
    rw [List.foldl_cons]
    exact (ih _ hrest).trans (syncStep_synced_ne env instances latestVersion acc d f hd)

theorem foldl_versions_template (env : String → String → LegEnv) (instances : List String)
    (latestVersion : SemVer) :
    ∀ (defs : List (String × FormatData)) (acc : SyncAcc),
      alookup (defs.foldl (syncStep env instances latestVersion) acc).1 "_template.json" =
        alookup acc.1 "_template.json" := by
  intro defs
  induction defs with
  | nil => intro acc; rfl
  | cons d rest ih =>
    intro acc
    rw [List.foldl_cons, ih]
    by_cases hd : d.1 = "_template.json"
    · rw [syncStep_template env instances latestVersion acc d hd]
    · exact syncStep_versions_ne env instances latestVersion acc d _ hd

theorem foldl_synced_template (env : String → String → LegEnv) (instances : List String)
    (latestVersion : SemVer) :
    ∀ (defs : List (String × FormatData)) (acc : SyncAcc), "_template.json" ∉ acc.2.1 →
      "_template.json" ∉ (defs.foldl (syncStep env instances latestVersion) acc).2.1 := by
  intro defs
  induction defs with
  | nil => intro acc h; exact h
  | cons d rest ih =>
    intro acc h
    rw [List.foldl_cons]
    apply ih
    by_cases hd : d.1 = "_template.json"
    · rw [syncStep_template env instances latestVersion acc d hd]; exact h
    · exact fun hh =>
        h ((syncStep_synced_ne env instances latestVersion acc d _ hd).1 hh)

theorem foldl_legs_template (env : String → String → LegEnv) (instances : List String)
    (latestVersion : SemVer) :
    ∀ (defs : List (String × FormatData)) (acc : SyncAcc),
      (∀ lg ∈ acc.2.2, lg.1 ≠ "_template.json") →
      ∀ lg ∈ (defs.foldl (syncStep env instances latestVersion) acc).2.2,
        lg.1 ≠ "_template.json" := by
  intro defs
  induction defs with
  | nil => intro acc h; exact h
  | cons d rest ih =>
    intro acc h
    rw [List.foldl_cons]
    apply ih
    intro lg hlg
    by_cases hd : d.1 = "_template.json"
    · rw [syncStep_template env instances latestVersion acc d hd] at hlg
      exact h lg hlg
    · rcases syncStep_legs_sub env instances latestVersion acc d lg hlg with h1 | h1
      · exact h lg h1
      · rw [h1]; exact hd

theorem latest_foldl_filter :
    ∀ (defs : List (String × FormatData)) (a : SemVer),
      defs.foldl latestStep a =
        (defs.filter (fun d => !(d.1 == "_template.json"))).foldl latestStep a := by
  intro defs
  induction defs with
  | nil => intro a; rfl
  | cons d rest ih =>
    intro a
    rw [List.foldl_cons]
    cases ht : (d.1 == "_template.json")
    · rw [List.filter_cons_of_pos (by simp [ht]), List.foldl_cons, ih]
    · have hstep : latestStep a d = a := by
        unfold latestStep
        rw [if_pos ht]
      rw [List.filter_cons_of_neg (by simp [ht]), hstep, ih]

theorem syncStep_at_file (env : String → String → LegEnv) (instances : List String)
    (latestVersion : SemVer) (acc : SyncAcc) (f : String) (fd : FormatData) (v : SemVer)
    (hf : f ≠ "_template.json")
    (hv : parseVersion (fd.cfSync_version.getD "0.0.0") = some v) :
    syncStep env instances latestVersion acc (f, fd) =
      if (vlt ((alookup acc.1 f).getD v0) v || vlt v latestVersion) = true then
        ((if (runInstances (env f) f fd instances).2 then update_version acc.1 f v else acc.1),
         acc.2.1 ++ [f], acc.2.2 ++ (runInstances (env f) f fd instances).1)
      else acc := by
  unfold syncStep
  have ht : (f == "_template.json") = false := by simp [hf]
  simp only [ht, Bool.false_eq_true, if_false, hv]

theorem foldl_synced_iff (env : String → String → LegEnv) (instances : List String)
    (latestVersion : SemVer) (f : String) (fd : FormatData) (v : SemVer)
    (hf : f ≠ "_template.json")
    (hv : parseVersion (fd.cfSync_version.getD "0.0.0") = some v) :
    ∀ (defs : List (String × FormatData)) (acc : SyncAcc),
      (f, fd) ∈ defs → (defs.map Prod.fst).Nodup → f ∉ acc.2.1 →
      (f ∈ (defs.foldl (syncStep env instances latestVersion) acc).2.1 ↔
        (vlt ((alookup acc.1 f).getD v0) v || vlt v latestVersion) = true) := by
  intro defs
  induction defs with
  | nil => intro acc hmem; cases hmem
  | cons d rest ih =>
    intro acc hmem hnd hnotin
    have hdnot : d.1 ∉ rest.map Prod.fst := (List.nodup_cons.1 (by simpa using hnd)).1
    have hndrest : (rest.map Prod.fst).Nodup := (List.nodup_cons.1 (by simpa using hnd)).2
    rw [List.foldl_cons]
    rcases List.mem_cons.1 hmem with heq | hmem2
    · have hd1 : d = (f, fd) := heq.symm
      subst hd1
      rw [syncStep_at_file env instances latestVersion acc f fd v hf hv]
      cases hc : (vlt ((alookup acc.1 f).getD v0) v || vlt v latestVersion)
      · simp only [hc, Bool.false_eq_true, if_false]
        rw [foldl_synced_of_not_key env instances latestVersion f rest acc hdnot]
        simp [hnotin, hc]
      · simp only [hc, if_true]
        rw [foldl_synced_of_not_key env instances latestVersion f rest _ hdnot]
        simp
    · have hfmem : f ∈ rest.map Prod.fst := by
        have := List.mem_map_of_mem Prod.fst hmem2
        simpa using this
      have hd : d.1 ≠ f := fun hh => hdnot (hh ▸ hfmem)
      have hlook := syncStep_versions_ne env instances latestVersion acc d f hd
      have hsync := syncStep_synced_ne env instances latestVersion acc d f hd
      rw [ih (syncStep env instances latestVersion acc d) hmem2 hndrest
        (fun hh => hnotin (hsync.1 hh)), hlook]

theorem foldl_versions_recorded (env : String → String → LegEnv) (instances : List String)
    (latestVersion : SemVer) (f : String) (fd : FormatData) (v : SemVer)
    (hf : f ≠ "_template.json")
    (hv : parseVersion (fd.cfSync_version.getD "0.0.0") = some v)
    (hlegs : ∀ i ∈ instances, (runLeg (env f i) fd).isFatal = false) :
    ∀ (defs : List (String × FormatData)) (acc : SyncAcc),
      (f, fd) ∈ defs → (defs.map Prod.fst).Nodup →
      (vlt ((alookup acc.1 f).getD v0) v || vlt v latestVersion) = true →
      alookup (defs.foldl (syncStep env instances latestVersion) acc).1 f = some v := by
  intro defs
  induction defs with
  | nil => intro acc hmem; cases hmem
  | cons d rest ih =>
    intro acc hmem hnd hdue
    have hdnot : d.1 ∉ rest.map Prod.fst := (List.nodup_cons.1 (by simpa using hnd)).1
    have hndrest : (rest.map Prod.fst).Nodup := (List.nodup_cons.1 (by simpa using hnd)).2
    rw [List.foldl_cons]
    rcases List.mem_cons.1 hmem with heq | hmem2
    · have hd1 : d = (f, fd) := heq.symm
      subst hd1
      rw [syncStep_at_file env instances latestVersion acc f fd v hf hv]
      rw [if_pos hdue]
      rw [foldl_versions_of_not_key env instances latestVersion f rest _ hdnot]
      simp only [runInstances_complete (env f) f fd instances hlegs, if_true, update_version]
      exact alookup_aset_self acc.1 f v
    · have hfmem : f ∈ rest.map Prod.fst := by
        have := List.mem_map_of_mem Prod.fst hmem2
        simpa using this
      have hd : d.1 ≠ f := fun hh => hdnot (hh ▸ hfmem)
      have hlook := syncStep_versions_ne env instances latestVersion acc d f hd
      exact ih (syncStep env instances latestVersion acc d) hmem2 hndrest
        (by rw [hlook]; exact hdue)

/-- Claim C1: a non-template definition with parsable declared version `v`
enters the sync branch of a run (its name is recorded among the synced
files, where an attempt is made for every eligible instance and the
version store is advanced) if and only if `v` is newer than the stored
version for that file or older than the batch-wide latest version; in
particular no sync is attempted when `v` equals the stored version and is
not behind the latest. -/
theorem C1_due_for_sync_iff (env : String → String → LegEnv)
    (defs : List (String × FormatData)) (instances : List String)
    (store : List (String × SemVer)) (f : String) (fd : FormatData) (v : SemVer)
    (hnd : (defs.map Prod.fst).Nodup)
    (hmem : (f, fd) ∈ defs)
    (hf : f ≠ "_template.json")
    (hv : parseVersion (fd.cfSync_version.getD "0.0.0") = some v) :
    (f ∈ (sync_custom_formats env defs instances store).synced ↔
      (vlt ((alookup store f).getD v0) v = true ∨ vlt v (computeLatest defs) = true)) := by
  cases defs with
  | nil => cases hmem
  | cons d rest =>
    have hfmem : f ∈ (d :: rest).map Prod.fst := by
      have := List.mem_map_of_mem Prod.fst hmem
      simpa using this
    have hstore1 : alookup (cleanup_versions store ((d :: rest).map Prod.fst)).1 f =
        alookup store f :=
      cleanup_preserves_existing store _ f (List.elem_eq_true_of_mem hfmem)
    unfold sync_custom_formats
    simp only []
    refine (foldl_synced_iff env instances (computeLatest (d :: rest)) f fd v hf hv
      (d :: rest) ((cleanup_versions store ((d :: rest).map Prod.fst)).1, [], [])
      hmem hnd (List.not_mem_nil f)).trans ?_
    rw [hstore1, Bool.or_eq_true]

/-- Witness for C1: a fresh file with version `1.0.0`, no stored version
and an all-transport-failure environment is due for sync. -/
theorem C1_due_for_sync_iff_witness :
    "a.json" ∈ (sync_custom_formats (fun _ _ => ⟨.error (), .error (), .error (), true⟩)
      [("a.json", { cfSync_version := some "1.0.0" })] ["Radarr_001"] []).synced :=
  (C1_due_for_sync_iff (fun _ _ => ⟨.error (), .error (), .error (), true⟩)
    [("a.json", { cfSync_version := some "1.0.0" })] ["Radarr_001"] []
    "a.json" { cfSync_version := some "1.0.0" } ⟨1, 0, 0⟩
    (by decide) (List.mem_singleton.2 rfl) (by decide) (by decide)).mpr
    (Or.inl (by decide))

/-- Claim C6: a due definition's declared version is recorded in the
version store after its instance legs have run, for every remote
behaviour in which the legs either succeed or fail with (caught)
transport errors — failing legs do not prevent the version update. -/
theorem C6_version_recorded_despite_transport_failures (env : String → String → LegEnv)
    (defs : List (String × FormatData)) (instances : List String)
    (store : List (String × SemVer)) (f : String) (fd : FormatData) (v : SemVer)
    (hnd : (defs.map Prod.fst).Nodup)
    (hmem : (f, fd) ∈ defs)
    (hf : f ≠ "_template.json")
    (hv : parseVersion (fd.cfSync_version.getD "0.0.0") = some v)
    (hdue : vlt ((alookup store f).getD v0) v = true ∨ vlt v (computeLatest defs) = true)
    (hlegs : ∀ i ∈ instances, (runLeg (env f i) fd).isFatal = false) :
    alookup (sync_custom_formats env defs instances store).versions f = some v := by
  cases defs with
  | nil => cases hmem
  | cons d rest =>
    have hfmem : f ∈ (d :: rest).map Prod.fst := by
      have := List.mem_map_of_mem Prod.fst hmem
      simpa using this
    have hstore1 : alookup (cleanup_versions store ((d :: rest).map Prod.fst)).1 f =
        alookup store f :=
      cleanup_preserves_existing store _ f (List.elem_eq_true_of_mem hfmem)
    unfold sync_custom_formats
    simp only []
    exact foldl_versions_recorded env instances (computeLatest (d :: rest)) f fd v hf hv hlegs
      (d :: rest) ((cleanup_versions store ((d :: rest).map Prod.fst)).1, [], [])
      hmem hnd (by rw [hstore1, Bool.or_eq_true]; exact hdue)

/-- Witness for C6: with every remote call failing with a transport error,
the due file's version is still recorded. -/
theorem C6_version_recorded_despite_transport_failures_witness :
    alookup (sync_custom_formats (fun _ _ => ⟨.error (), .error (), .error (), true⟩)
      [("a.json", { cfSync_version := some "1.0.0" })] ["Radarr_001"] []).versions "a.json" =
      some ⟨1, 0, 0⟩ :=
  C6_version_recorded_despite_transport_failures
    (fun _ _ => ⟨.error (), .error (), .error (), true⟩)
    [("a.json", { cfSync_version := some "1.0.0" })] ["Radarr_001"] []
    "a.json" { cfSync_version := some "1.0.0" } ⟨1, 0, 0⟩
    (by decide) (List.mem_singleton.2 rfl) (by decide) (by decide)
    (Or.inl (by decide)) (by decide)

/-- Counterexample to claim C8: `_template.json` is present in the
definitions directory, and a stale entry for it sits in the loaded version
store; the run never removes it (the file exists, so pruning keeps it), so
its key is still in the version store after the run, contrary to the
claim's assertion that it never appears there. -/
theorem C8_counterexample :
    "_template.json" ∈
      ([("_template.json", ({ cfSync_version := some "1.0.0" } : FormatData))].map Prod.fst) ∧
    alookup (sync_custom_formats (fun _ _ => ⟨.error (), .error (), .error (), true⟩)
      [("_template.json", { cfSync_version := some "1.0.0" })] []
      [("_template.json", ⟨1, 0, 0⟩)]).versions "_template.json" = some ⟨1, 0, 0⟩ := by
  constructor
  · decide
  · decide

/-- Amended claim C8: in every run where `_template.json` is present, it
never enters the sync branch (no sync attempt, no leg, no version
update for it) and its declared version does not contribute to the
batch-wide latest version; however, the run never removes a pre-existing
version-store entry for it either — pruning keeps the key because the file
exists — so its stored entry after the run equals the one loaded before
the run rather than being absent. -/
theorem C8_template_never_synced (env : String → String → LegEnv)
    (defs : List (String × FormatData)) (instances : List String)
    (store : List (String × SemVer))
    (hmem : "_template.json" ∈ defs.map Prod.fst) :
    "_template.json" ∉ (sync_custom_formats env defs instances store).synced ∧
    (∀ lg ∈ (sync_custom_formats env defs instances store).legs,
      lg.1 ≠ "_template.json") ∧
    alookup (sync_custom_formats env defs instances store).versions "_template.json" =
      alookup store "_template.json" ∧
    (sync_custom_formats env defs instances store).latest =
      computeLatest (defs.filter (fun d => !(d.1 == "_template.json"))) := by
  cases defs with
  | nil => simp at hmem
  | cons d rest =>
    unfold sync_custom_formats
    simp only []
    refine ⟨?_, ?_, ?_, ?_⟩
    · exact foldl_synced_template env instances (computeLatest (d :: rest)) (d :: rest) _
        (List.not_mem_nil _)
    · exact foldl_legs_template env instances (computeLatest (d :: rest)) (d :: rest) _
        (fun lg hlg => absurd hlg (List.not_mem_nil lg))
    · rw [foldl_versions_template env instances (computeLatest (d :: rest)) (d :: rest) _]
      exact cleanup_preserves_existing store _ _ (List.elem_eq_true_of_mem hmem)
    · unfold computeLatest
      exact latest_foldl_filter (d :: rest) v0

/-- Witness for the amended C8: in the concrete run of the counterexample,
the template never enters the sync branch. -/
theorem C8_template_never_synced_witness :
    "_template.json" ∉ (sync_custom_formats (fun _ _ => ⟨.error (), .error (), .error (), true⟩)
      [("_template.json", { cfSync_version := some "1.0.0" })] []
      [("_template.json", ⟨1, 0, 0⟩)]).synced :=
  (C8_template_never_synced (fun _ _ => ⟨.error (), .error (), .error (), true⟩)
    [("_template.json", { cfSync_version := some "1.0.0" })] []
    [("_template.json", ⟨1, 0, 0⟩)] (by decide)).1

/-! Supporting facts: `computeLatest` is the maximum declared version over
the non-template definitions of the batch (the claim's
`globalLatestVersion`). -/

theorem vlt_irrefl (a : SemVer) : vlt a a = false := by
  simp [vlt]

theorem vlt_asymm (a b : SemVer) (h : vlt a b = true) : vlt b a = false := by
  simp [vlt] at *
  omega

theorem vlt_false_trans (a b c : SemVer) (h1 : vlt a b = false) (h2 : vlt b c = false) :
    vlt a c = false := by
  simp [vlt] at *
  omega

theorem latestStep_ge (a : SemVer) (d : String × FormatData) :
    vlt (latestStep a d) a = false := by
  unfold latestStep
  cases ht : (d.1 == "_template.json")
  · simp only [ht, Bool.false_eq_true, if_false]
    cases hp : parseVersion (d.2.cfSync_version.getD "0.0.0") with
    | none => exact vlt_irrefl a
    | some w =>
      simp only []
      cases hc : vlt a w
      · simp only [hc, Bool.false_eq_true, if_false]
        exact vlt_irrefl a
      · simp only [hc, if_true]
        exact vlt_asymm a w hc
  · simp only [ht, if_true]
    exact vlt_irrefl a

theorem latest_foldl_ge (defs : List (String × FormatData)) :
    ∀ a : SemVer, vlt (defs.foldl latestStep a) a = false := by
  induction defs with
  | nil => intro a; exact vlt_irrefl a
  | cons d rest ih =>
    intro a
    rw [List.foldl_cons]
    exact vlt_false_trans _ _ _ (ih (latestStep a d)) (latestStep_ge a d)

theorem latest_foldl_ge_mem (defs : List (String × FormatData)) :
    ∀ (a : SemVer) (g : String) (gd : FormatData) (w : SemVer), (g, gd) ∈ defs →
      g ≠ "_template.json" → parseVersion (gd.cfSync_version.getD "0.0.0") = some w →
      vlt (defs.foldl latestStep a) w = false := by
  induction defs with
  | nil => intro a g gd w hmem; cases hmem
  | cons d rest ih =>
    intro a g gd w hmem hg hw
    rw [List.foldl_cons]
    rcases List.mem_cons.1 hmem with heq | hmem2
    · have hd : d = (g, gd) := heq.symm
      subst hd
      have hstep1 : latestStep a (g, gd) = if vlt a w then w else a := by
        unfold latestStep
        rw [if_neg (by simp [hg]), hw]
      have hstep : vlt (latestStep a (g, gd)) w = false := by
        rw [hstep1]
        by_cases hc : vlt a w = true
        · rw [if_pos hc]
          exact vlt_irrefl w
        · rw [if_neg hc]
          simpa using hc
      exact vlt_false_trans _ _ _ (latest_foldl_ge rest (latestStep a (g, gd))) hstep
    · exact ih (latestStep a d) g gd w hmem2 hg hw

theorem latest_foldl_attained (defs : List (String × FormatData)) :
    ∀ a : SemVer, defs.foldl latestStep a = a ∨
      ∃ g gd, (g, gd) ∈ defs ∧ g ≠ "_template.json" ∧
        parseVersion (gd.cfSync_version.getD "0.0.0") = some (defs.foldl latestStep a) := by
  induction defs with
  | nil => intro a; exact Or.inl rfl
  | cons d rest ih =>
    intro a
    rw [List.foldl_cons]
    have hlift : ∀ r : SemVer,
        (∃ g gd, (g, gd) ∈ rest ∧ g ≠ "_template.json" ∧
          parseVersion (gd.cfSync_version.getD "0.0.0") = some r) →
        ∃ g gd, (g, gd) ∈ d :: rest ∧ g ≠ "_template.json" ∧
          parseVersion (gd.cfSync_version.getD "0.0.0") = some r := by
      rintro r ⟨g, gd, hmem, hg, hp⟩
      exact ⟨g, gd, List.mem_cons_of_mem d hmem, hg, hp⟩
    have hstepcases : latestStep a d = a ∨
        (d.1 ≠ "_template.json" ∧
          parseVersion (d.2.cfSync_version.getD "0.0.0") = some (latestStep a d)) := by
      by_cases ht : d.1 = "_template.json"
      · left
        unfold latestStep
        rw [if_pos (by simp [ht])]
      · cases hp : parseVersion (d.2.cfSync_version.getD "0.0.0") with
        | none =>
          left
          unfold latestStep
          rw [if_neg (by simp [ht]), hp]
        | some w =>
          have hstep1 : latestStep a d = if vlt a w then w else a := by
            unfold latestStep
            rw [if_neg (by simp [ht]), hp]
          by_cases hc : vlt a w = true
          · right
            refine ⟨ht, ?_⟩
            rw [hstep1, if_pos hc]
          · left
            rw [hstep1, if_neg hc]
    rcases ih (latestStep a d) with hfold | ⟨g, gd, hmem, hg, hp⟩
    · rw [hfold]
      rcases hstepcases with hs | ⟨hs1, hs2⟩
      · exact Or.inl hs
      · exact Or.inr ⟨d.1, d.2, List.mem_cons_self d rest, hs1, hs2⟩
    · exact Or.inr (hlift _ ⟨g, gd, hmem, hg, hp⟩)

/-- The batch-wide latest version computed by `sync_custom_formats` is a
maximum of the parsable declared versions of non-template definitions:
it is at least every such version, and is either attained by one of them
or is the base `0.0.0` (in particular, when every non-template definition
has a parsable declared version and at least one exists, it is exactly the
claim's `globalLatestVersion`). -/
theorem computeLatest_is_max (defs : List (String × FormatData)) :
    (∀ (g : String) (gd : FormatData) (w : SemVer), (g, gd) ∈ defs →
      g ≠ "_template.json" → parseVersion (gd.cfSync_version.getD "0.0.0") = some w →
      vlt (computeLatest defs) w = false) ∧
    (computeLatest defs = v0 ∨
      ∃ g gd, (g, gd) ∈ defs ∧ g ≠ "_template.json" ∧
        parseVersion (gd.cfSync_version.getD "0.0.0") = some (computeLatest defs)) := by
  constructor
  · intro g gd w hmem hg hw
    exact latest_foldl_ge_mem defs v0 g gd w hmem hg hw
  · exact latest_foldl_attained defs v0
